import Mathlib

/-!
Shallow embedding of the clockwatch TUI (src/src/main.rs).

The program is a terminal stopwatch.  Its state is the `Clockwatch`
struct (a `running` flag, an accumulated `elapsed_time`, and a list of
`laps`) owned by an `App` struct that also holds an `exit` flag.  The
`App::run` loop repeatedly computes the wall-clock delta `dt`, drains
pending key events, dispatches key presses, advances the clock by `dt`,
and repaints; it stops as soon as `exit` is true.

Modelling choices:
* Rust `std::time::Duration` is a non-negative span with nanosecond
  precision; we model it as a natural number of nanoseconds.  `as_millis`
  is the derived millisecond count (integer division by 1000000), as in
  the standard library.  Duration addition is plain addition.
* `last_frame : Instant` exists only to measure wall-clock time; the
  measured delta `dt` becomes an explicit input of each loop iteration.
* Rendering (`Widget::render`, `terminal.draw`) takes the state by
  shared reference and mutates nothing, so it does not appear in the
  state transitions; the one pure piece the spec talks about,
  `Clockwatch::duration_into_text`, is embedded below.
* The drained event queue of one iteration becomes an explicit list of
  events; `event::poll`/`event::read` deliver them in order.
-/

/-- Rust `std::time::Duration`, as a natural number of nanoseconds. -/
abbrev Duration := Nat

/-- Rust `Duration::as_millis`: the whole number of milliseconds in the span. -/
def asMillis (d : Duration) : Nat :=
  d / 1000000

/-- The `Clockwatch` struct of main.rs: `running`, accumulated
`elapsed_time`, and the recorded `laps` (a `Vec<Duration>`, push appends
at the end). -/
structure Clockwatch where
  running : Bool
  elapsed_time : Duration
  laps : List Duration
deriving DecidableEq

/-- `Clockwatch::update`: if `running`, add `dt` to `elapsed_time`; otherwise
do nothing. -/
def Clockwatch.update (c : Clockwatch) (dt : Duration) : Clockwatch :=
  if c.running then { c with elapsed_time := c.elapsed_time + dt } else c

/-- `Clockwatch::toggle_start_pause`: negate the `running` flag. -/
def Clockwatch.toggle_start_pause (c : Clockwatch) : Clockwatch :=
  { c with running := !c.running }

/-- `Clockwatch::lap`: push the current `elapsed_time` onto `laps`. -/
def Clockwatch.lap (c : Clockwatch) : Clockwatch :=
  { c with laps := c.laps ++ [c.elapsed_time] }

/-- The state `main` builds at startup:
`Clockwatch { elapsed_time: Duration::ZERO, running: false, laps: vec![] }`. -/
def Clockwatch.initial : Clockwatch :=
  { running := false, elapsed_time := 0, laps := [] }

/-- Decimal digits of `n`, most significant first, with an explicit fuel
argument for structural recursion (the digit characters Rust's `{:02}`
formatting emits). -/
def toDecCore : Nat → Nat → List Char
  | 0, _ => []
  | fuel + 1, n =>
    if n < 10 then [Nat.digitChar n]
    else toDecCore fuel (n / 10) ++ [Nat.digitChar (n % 10)]

/-- Decimal string of a natural number (what Rust's `{}` prints for an
unsigned integer). -/
def natDecStr (n : Nat) : String :=
  String.mk (toDecCore (n + 1) n)

/-- Left-pad a string with zeros to the minimum width `w`, as Rust's
`{:0w}` format specifier does. -/
def padZeros (w : Nat) (s : String) : String :=
  String.mk (List.replicate (w - s.length) '0') ++ s

/-- Rust's `{:0w}` applied to a natural number: decimal digits, zero-padded
to minimum width `w`. -/
def fmtPad (w : Nat) (n : Nat) : String :=
  padZeros w (natDecStr n)

/-- `Clockwatch::duration_into_text`: take `all_millis = dt.as_millis()`,
split into hours / minutes / seconds / milliseconds by the division chain
of the source, and render `"{:02}:{:02}:{:02}:{:03}"`. -/
def duration_into_text (dt : Duration) : String :=
  let all_millis := asMillis dt
  let hours := all_millis / 1000 / 60 / 60
  let minutes := all_millis / 1000 / 60 % 60
  let secs := all_millis / 1000 % 60
  let millis := all_millis % 1000
  fmtPad 2 hours ++ ":" ++ fmtPad 2 minutes ++ ":" ++ fmtPad 2 secs ++ ":" ++ fmtPad 3 millis

/-- The spec's formatting algorithm, stated in its own words: render the
quadruple `(hours, minutes, seconds, millis)` as `%02d:%02d:%02d:%03d`.
Kept separate from `duration_into_text` so the refinement between the two
is a theorem, not a definition. -/
def specFormat (h mi s ms : Nat) : String :=
  fmtPad 2 h ++ ":" ++ fmtPad 2 mi ++ ":" ++ fmtPad 2 s ++ ":" ++ fmtPad 3 ms

/-- Crossterm `KeyEventKind`: a key event is a press, a repeat, or a
release. -/
inductive KeyEventKind where
  | Press
  | Repeat
  | Release
deriving DecidableEq

/-- Crossterm `KeyCode`, collapsed to what the program's match inspects: a
character key, or any of the non-character keys (all taken by the `_` arm). -/
inductive KeyCode where
  | Char : Char → KeyCode
  | Other : KeyCode
deriving DecidableEq

/-- Crossterm `KeyEvent`: a key code together with the kind of transition. -/
structure KeyEvent where
  code : KeyCode
  kind : KeyEventKind
deriving DecidableEq

/-- Crossterm `event::Event`, collapsed to what the `if let` inspects: a key
event, or any other event (resize, mouse, ...), which the loop ignores. -/
inductive Event where
  | Key : KeyEvent → Event
  | NonKey : Event
deriving DecidableEq

/-- The `App` struct: the owned `Clockwatch` and the `exit` flag
(`last_frame` is the wall-clock instant used only to measure `dt`, which is
an explicit input here). -/
structure App where
  clock : Clockwatch
  exit : Bool
deriving DecidableEq

/-- `App::update`: forward `dt` to the clock. -/
def App.update (a : App) (dt : Duration) : App :=
  { a with clock := a.clock.update dt }

/-- `App::handle_key_pressed_event`: `'q'` sets `exit`; `' '` toggles
start/pause; `'l'` records a lap; every other key falls to the `_` arm and
does nothing. -/
def App.handle_key_pressed_event (a : App) (key_event : KeyEvent) : App :=
  match key_event.code with
  | KeyCode.Char 'q' => { a with exit := true }
  | KeyCode.Char ' ' => { a with clock := a.clock.toggle_start_pause }
  | KeyCode.Char 'l' => { a with clock := a.clock.lap }
  | _ => a

/-- `App::handle_events`: drain the pending events in order; each key event
whose kind is `Press` is dispatched to `handle_key_pressed_event`, every
other event is dropped. -/
def App.handle_events (a : App) (events : List Event) : App :=
  events.foldl
    (fun st e =>
      match e with
      | Event.Key key_event =>
          if key_event.kind = KeyEventKind.Press then st.handle_key_pressed_event key_event
          else st
      | Event.NonKey => st)
    a

/-- One iteration of the body of `App::run`: drain and dispatch the pending
events, then advance the clock by the frame's `dt` (drawing mutates
nothing). -/
def App.step (a : App) (dt : Duration) (events : List Event) : App :=
  (a.handle_events events).update dt

/-- `App::run`: `while !self.exit`, run one iteration per frame.  A frame is
the measured `dt` paired with the events pending during that iteration; the
loop stops, ignoring the remaining frames, as soon as `exit` is true. -/
def App.run (a : App) : List (Duration × List Event) → App
  | [] => a
  | f :: fs => if a.exit then a else ((a.step f.1 f.2).run fs)

/-- A sequence of `Clockwatch::update` calls, applied in order. -/
def Clockwatch.updates (c : Clockwatch) (dts : List Duration) : Clockwatch :=
  dts.foldl Clockwatch.update c

/-- `n` consecutive calls of `Clockwatch::lap`. -/
def Clockwatch.lapN (c : Clockwatch) : Nat → Clockwatch
  | 0 => c
  | n + 1 => Clockwatch.lapN c.lap n

/-- The three mutating operations of the `Clockwatch` impl. -/
inductive ClockOp where
  | update : Duration → ClockOp
  | toggle : ClockOp
  | lap : ClockOp

/-- Apply one `Clockwatch` operation. -/
def Clockwatch.applyOp (c : Clockwatch) : ClockOp → Clockwatch
  | ClockOp.update dt => c.update dt
  | ClockOp.toggle => c.toggle_start_pause
  | ClockOp.lap => c.lap

/-- Apply a sequence of `Clockwatch` operations in order. -/
def Clockwatch.applyOps (c : Clockwatch) (ops : List ClockOp) : Clockwatch :=
  ops.foldl Clockwatch.applyOp c

example : duration_into_text 3723045000000 = "01:02:03:045" := by decide

example : natDecStr 360000000 = "360000000" := by decide

example :
    (App.run { clock := Clockwatch.initial, exit := false }
      [(7, [Event.Key { code := KeyCode.Char ' ', kind := KeyEventKind.Press }]),
       (5, [Event.Key { code := KeyCode.Char 'l', kind := KeyEventKind.Press }])]).clock
      = { running := true, elapsed_time := 12, laps := [7] } := by decide

theorem Clockwatch.update_running (c : Clockwatch) (dt : Duration) :
    (c.update dt).running = c.running := by
  unfold Clockwatch.update; split <;> rfl

theorem Clockwatch.update_laps (c : Clockwatch) (dt : Duration) :
    (c.update dt).laps = c.laps := by
  unfold Clockwatch.update; split <;> rfl

theorem Clockwatch.update_of_running (c : Clockwatch) (dt : Duration)
    (h : c.running = true) :
    c.update dt = { c with elapsed_time := c.elapsed_time + dt } := by
  unfold Clockwatch.update
  rw [h]
  rfl

theorem Clockwatch.update_of_paused (c : Clockwatch) (dt : Duration)
    (h : c.running = false) :
    c.update dt = c := by
  unfold Clockwatch.update
  rw [h]
  rfl

theorem Clockwatch.updates_elapsed_of_running (dts : List Duration) :
    ∀ c : Clockwatch, c.running = true →
      (c.updates dts).elapsed_time = c.elapsed_time + dts.sum := by
  induction dts with
  | nil => intro c _; simp [Clockwatch.updates]
  | cons d ds ih =>
      intro c h
      have hrun : (c.update d).running = true := by
        rw [Clockwatch.update_running, h]
      have : Clockwatch.updates c (d :: ds) = Clockwatch.updates (c.update d) ds := rfl
      rw [this, ih (c.update d) hrun, Clockwatch.update_of_running c d h]
      simp [Nat.add_assoc]

theorem Clockwatch.updates_of_paused (dts : List Duration) :
    ∀ c : Clockwatch, c.running = false → c.updates dts = c := by
  induction dts with
  | nil => intro c _; rfl
  | cons d ds ih =>
      intro c h
      have : Clockwatch.updates c (d :: ds) = Clockwatch.updates (c.update d) ds := rfl
      rw [this, Clockwatch.update_of_paused c d h, ih c h]

/-- Claim C1: `update(dt)` adds `dt` to `elapsed_time` when `running` and is a
no-op when paused; over any sequence of updates while running,
`elapsed_time` grows by the sum of the deltas, and over any sequence while
paused the state is unchanged. -/
theorem c1_update_accumulates :
    (∀ (c : Clockwatch) (dt : Duration), c.running = true →
        c.update dt = { c with elapsed_time := c.elapsed_time + dt })
  ∧ (∀ (c : Clockwatch) (dt : Duration), c.running = false → c.update dt = c)
  ∧ (∀ (c : Clockwatch) (dts : List Duration), c.running = true →
        (c.updates dts).elapsed_time = c.elapsed_time + dts.sum)
  ∧ (∀ (c : Clockwatch) (dts : List Duration), c.running = false →
        c.updates dts = c) :=
  ⟨Clockwatch.update_of_running, Clockwatch.update_of_paused,
   fun c dts => Clockwatch.updates_elapsed_of_running dts c,
   fun c dts => Clockwatch.updates_of_paused dts c⟩

/-- Witness for C1 at concrete states. -/
theorem c1_witness :
    Clockwatch.update ⟨true, 4, []⟩ 3 = ⟨true, 7, []⟩
  ∧ Clockwatch.update ⟨false, 4, []⟩ 3 = ⟨false, 4, []⟩
  ∧ (Clockwatch.updates ⟨true, 1, []⟩ [2, 3, 4]).elapsed_time = 10
  ∧ Clockwatch.updates ⟨false, 1, []⟩ [2, 3, 4] = ⟨false, 1, []⟩ :=
  ⟨c1_update_accumulates.1 ⟨true, 4, []⟩ 3 rfl,
   c1_update_accumulates.2.1 ⟨false, 4, []⟩ 3 rfl,
   c1_update_accumulates.2.2.1 ⟨true, 1, []⟩ [2, 3, 4] rfl,
   c1_update_accumulates.2.2.2 ⟨false, 1, []⟩ [2, 3, 4] rfl⟩

theorem Clockwatch.lapN_spec (n : Nat) :
    ∀ c : Clockwatch,
      (c.lapN n).laps = c.laps ++ List.replicate n c.elapsed_time
    ∧ (c.lapN n).running = c.running
    ∧ (c.lapN n).elapsed_time = c.elapsed_time := by
  induction n with
  | zero => intro c; simp [Clockwatch.lapN]
  | succ m ih =>
      intro c
      have step : c.lapN (m + 1) = Clockwatch.lapN c.lap m := rfl
      obtain ⟨h1, h2, h3⟩ := ih c.lap
      rw [step]
      refine ⟨?_, h2, h3⟩
      rw [h1]
      simp [Clockwatch.lap, List.replicate_succ]

/-- Claim C3: `lap()` appends exactly one entry, equal to the current
`elapsed_time`, at the end of `laps` and changes nothing else; `N` calls
append `N` such entries in call order, so from any state the list grows by
exactly `N`. -/
theorem c3_lap_appends :
    (∀ c : Clockwatch,
        c.lap = { running := c.running, elapsed_time := c.elapsed_time,
                  laps := c.laps ++ [c.elapsed_time] })
  ∧ (∀ (c : Clockwatch) (n : Nat),
        (c.lapN n).laps = c.laps ++ List.replicate n c.elapsed_time
      ∧ (c.lapN n).running = c.running
      ∧ (c.lapN n).elapsed_time = c.elapsed_time
      ∧ (c.lapN n).laps.length = c.laps.length + n) :=
  ⟨fun _ => rfl,
   fun c n => by
    obtain ⟨h1, h2, h3⟩ := Clockwatch.lapN_spec n c
    exact ⟨h1, h2, h3, by rw [h1]; simp⟩⟩

/-- Claim C4: `toggle_start_pause()` flips only `running`; applied twice it
restores the whole state, and neither one nor two applications touch
`elapsed_time` or `laps`. -/
theorem c4_toggle_involutive :
    ∀ c : Clockwatch,
      c.toggle_start_pause.toggle_start_pause = c
    ∧ c.toggle_start_pause.running = !c.running
    ∧ c.toggle_start_pause.elapsed_time = c.elapsed_time
    ∧ c.toggle_start_pause.laps = c.laps
    ∧ c.toggle_start_pause.toggle_start_pause.elapsed_time = c.elapsed_time
    ∧ c.toggle_start_pause.toggle_start_pause.laps = c.laps := by
  intro c
  cases c with
  | mk r e l => simp [Clockwatch.toggle_start_pause]

theorem Clockwatch.applyOp_elapsed_le (c : Clockwatch) (op : ClockOp) :
    c.elapsed_time ≤ (c.applyOp op).elapsed_time := by
  cases op with
  | update dt =>
      show c.elapsed_time ≤ (c.update dt).elapsed_time
      unfold Clockwatch.update
      split
      · exact Nat.le_add_right _ _
      · exact Nat.le_refl _
  | toggle => exact Nat.le_refl _
  | lap => exact Nat.le_refl _

/-- Claim C7: `elapsed_time` never decreases: each of the three operations
maps `elapsed_time` to a value at least as large, on every state (hence in
particular on every reachable one). -/
theorem c7_elapsed_monotone :
    ∀ (c : Clockwatch) (op : ClockOp),
      c.elapsed_time ≤ (c.applyOp op).elapsed_time :=
  Clockwatch.applyOp_elapsed_le

theorem Clockwatch.applyOp_laps_grow (c : Clockwatch) (op : ClockOp) :
    ∃ t, (c.applyOp op).laps = c.laps ++ t := by
  cases op with
  | update dt =>
      exact ⟨[], by rw [List.append_nil]; exact Clockwatch.update_laps c dt⟩
  | toggle => exact ⟨[], by rw [List.append_nil]; rfl⟩
  | lap => exact ⟨[c.elapsed_time], rfl⟩

theorem Clockwatch.applyOp_laps_le (c : Clockwatch)
    (h : ∀ l ∈ c.laps, l ≤ c.elapsed_time) (op : ClockOp) :
    ∀ l ∈ (c.applyOp op).laps, l ≤ (c.applyOp op).elapsed_time := by
  intro l hl
  cases op with
  | update dt =>
      have hlaps : (c.applyOp (ClockOp.update dt)).laps = c.laps :=
        Clockwatch.update_laps c dt
      rw [hlaps] at hl
      exact Nat.le_trans (h l hl) (Clockwatch.applyOp_elapsed_le c (ClockOp.update dt))
  | toggle => exact h l hl
  | lap =>
      have hl' : l ∈ c.laps ++ [c.elapsed_time] := hl
      rw [List.mem_append] at hl'
      cases hl' with
      | inl hmem => exact h l hmem
      | inr hlast =>
          rw [List.mem_singleton] at hlast
          exact Nat.le_of_eq hlast

theorem Clockwatch.applyOps_laps_le (ops : List ClockOp) :
    ∀ c : Clockwatch, (∀ l ∈ c.laps, l ≤ c.elapsed_time) →
      ∀ l ∈ (c.applyOps ops).laps, l ≤ (c.applyOps ops).elapsed_time := by
  induction ops with
  | nil => intro c h; exact h
  | cons op rest ih =>
      intro c h
      have step : Clockwatch.applyOps c (op :: rest)
          = Clockwatch.applyOps (c.applyOp op) rest := rfl
      rw [step]
      exact ih (c.applyOp op) (Clockwatch.applyOp_laps_le c h op)

/-- Claim C8: starting from the initial state (`running=false`,
`elapsed_time=0`, empty `laps`), after any sequence of
update/toggle/lap operations every recorded lap is at most the current
`elapsed_time`; moreover no single operation ever modifies or removes an
existing lap entry (the old list is always a prefix of the new one). -/
theorem c8_laps_bounded :
    (∀ (ops : List ClockOp) (l : Duration),
        l ∈ (Clockwatch.initial.applyOps ops).laps →
        l ≤ (Clockwatch.initial.applyOps ops).elapsed_time)
  ∧ (∀ (c : Clockwatch) (op : ClockOp), ∃ t, (c.applyOp op).laps = c.laps ++ t) :=
  ⟨fun ops l hl =>
    Clockwatch.applyOps_laps_le ops Clockwatch.initial (by intro x hx; cases hx) l hl,
   Clockwatch.applyOp_laps_grow⟩

/-- Witness for C8: a run that starts the clock, accumulates 2, records a
lap, then pauses and records another; both recorded laps are bounded by the
final elapsed time, and a lap step only appends. -/
theorem c8_witness :
    ((2 : Nat) ≤ (Clockwatch.initial.applyOps
        [ClockOp.toggle, ClockOp.update 2, ClockOp.lap, ClockOp.toggle,
         ClockOp.lap]).elapsed_time)
  ∧ (∃ t, (Clockwatch.initial.applyOp ClockOp.lap).laps
        = Clockwatch.initial.laps ++ t) :=
  ⟨c8_laps_bounded.1
      [ClockOp.toggle, ClockOp.update 2, ClockOp.lap, ClockOp.toggle, ClockOp.lap]
      2 (by decide),
   c8_laps_bounded.2 Clockwatch.initial ClockOp.lap⟩

theorem App.handle_key_pressed_event_exit_mono (a : App) (e : KeyEvent)
    (h : a.exit = true) : (a.handle_key_pressed_event e).exit = true := by
  unfold App.handle_key_pressed_event
  split <;> first | rfl | exact h

theorem App.handle_events_exit_mono (events : List Event) :
    ∀ a : App, a.exit = true → (a.handle_events events).exit = true := by
  induction events with
  | nil => intro a h; exact h
  | cons e rest ih =>
      intro a h
      cases e with
      | Key key_event =>
          have step : a.handle_events (Event.Key key_event :: rest)
              = App.handle_events
                  (if key_event.kind = KeyEventKind.Press
                   then a.handle_key_pressed_event key_event else a) rest := by
            unfold App.handle_events
            simp [List.foldl]
          rw [step]
          split
          · exact ih _ (App.handle_key_pressed_event_exit_mono a key_event h)
          · exact ih a h
      | NonKey => exact ih a h

theorem App.update_exit (a : App) (dt : Duration) : (a.update dt).exit = a.exit :=
  rfl

theorem App.run_of_exit (a : App) (frames : List (Duration × List Event))
    (h : a.exit = true) : a.run frames = a := by
  cases frames with
  | nil => rfl
  | cons f fs =>
      show (if a.exit then a else ((a.step f.1 f.2).run fs)) = a
      rw [h]
      rfl

/-- Counterexample to C5 as stated: with the clock running, press `q` in an
iteration whose frame delta is 5.  At the moment the quit key is processed
(the end of the event drain) `elapsed_time` is still 0, but `App::run` then
executes `self.update(dt)` in the same iteration, so the final
`elapsed_time` is 5 — state mutation does occur after the quit key is
processed. -/
theorem c5_counterexample :
    ¬ ((App.run ⟨⟨true, 0, []⟩, false⟩
          [(5, [Event.Key ⟨KeyCode.Char 'q', KeyEventKind.Press⟩])]).clock.elapsed_time
        = (App.handle_events ⟨⟨true, 0, []⟩, false⟩
            [Event.Key ⟨KeyCode.Char 'q', KeyEventKind.Press⟩]).clock.elapsed_time) := by
  decide

/-- Claim C5 (amended): dispatching a `q` press sets `exit`; `exit`, once
true, survives the rest of the iteration (the remaining drained events and
the per-frame `update`), and the loop then executes no further iteration and
performs no further mutation — `run` returns its state unchanged.  (Within
the `q` iteration itself, the remaining queued events and the per-frame
`update(dt)` still execute before the loop condition is rechecked.) -/
theorem c5_quit_terminates :
    (∀ (a : App) (k : KeyEventKind),
        (a.handle_key_pressed_event ⟨KeyCode.Char 'q', k⟩).exit = true)
  ∧ (∀ (a : App) (events : List Event), a.exit = true →
        (a.handle_events events).exit = true)
  ∧ (∀ (a : App) (dt : Duration), (a.update dt).exit = a.exit)
  ∧ (∀ (a : App) (frames : List (Duration × List Event)), a.exit = true →
        a.run frames = a) :=
  ⟨fun _ _ => rfl,
   fun a events h => App.handle_events_exit_mono events a h,
   App.update_exit,
   App.run_of_exit⟩

/-- Witness for C5 (amended) at concrete states. -/
theorem c5_witness :
    (App.handle_key_pressed_event ⟨⟨true, 3, []⟩, false⟩
        ⟨KeyCode.Char 'q', KeyEventKind.Press⟩).exit = true
  ∧ (App.handle_events ⟨⟨true, 3, []⟩, true⟩
        [Event.Key ⟨KeyCode.Char ' ', KeyEventKind.Press⟩]).exit = true
  ∧ (App.update ⟨⟨true, 3, []⟩, true⟩ 9).exit = true
  ∧ App.run ⟨⟨true, 3, []⟩, true⟩ [(9, [])] = ⟨⟨true, 3, []⟩, true⟩ :=
  ⟨c5_quit_terminates.1 ⟨⟨true, 3, []⟩, false⟩ KeyEventKind.Press,
   c5_quit_terminates.2.1 ⟨⟨true, 3, []⟩, true⟩
     [Event.Key ⟨KeyCode.Char ' ', KeyEventKind.Press⟩] rfl,
   c5_quit_terminates.2.2.1 ⟨⟨true, 3, []⟩, true⟩ 9,
   c5_quit_terminates.2.2.2 ⟨⟨true, 3, []⟩, true⟩ [(9, [])] rfl⟩

theorem App.handle_events_single_key (a : App) (ke : KeyEvent) :
    a.handle_events [Event.Key ke]
      = if ke.kind = KeyEventKind.Press then a.handle_key_pressed_event ke else a :=
  rfl

theorem App.handle_key_other_char (a : App) (c : Char) (k : KeyEventKind)
    (hq : c ≠ 'q') (hsp : c ≠ ' ') (hl : c ≠ 'l') :
    a.handle_key_pressed_event ⟨KeyCode.Char c, k⟩ = a := by
  unfold App.handle_key_pressed_event
  split <;> simp_all

/-- Claim C6: only `Press` key events trigger an action (`Release` and
`Repeat` leave the state untouched), and among presses only `q` (set exit),
space (toggle start/pause) and `l` (record a lap) do anything; any other
key press — another character or a non-character key — leaves the whole
state unchanged. -/
theorem c6_key_dispatch :
    (∀ (a : App) (ke : KeyEvent), ke.kind ≠ KeyEventKind.Press →
        a.handle_events [Event.Key ke] = a)
  ∧ (∀ (a : App) (c : Char) (k : KeyEventKind), c ≠ 'q' → c ≠ ' ' → c ≠ 'l' →
        a.handle_key_pressed_event ⟨KeyCode.Char c, k⟩ = a)
  ∧ (∀ (a : App) (k : KeyEventKind),
        a.handle_key_pressed_event ⟨KeyCode.Other, k⟩ = a)
  ∧ (∀ a : App,
        a.handle_events [Event.Key ⟨KeyCode.Char 'q', KeyEventKind.Press⟩]
          = { a with exit := true })
  ∧ (∀ a : App,
        a.handle_events [Event.Key ⟨KeyCode.Char ' ', KeyEventKind.Press⟩]
          = { a with clock := a.clock.toggle_start_pause })
  ∧ (∀ a : App,
        a.handle_events [Event.Key ⟨KeyCode.Char 'l', KeyEventKind.Press⟩]
          = { a with clock := a.clock.lap }) :=
  ⟨fun a ke hk => by
      rw [App.handle_events_single_key]
      split
      · exact absurd (by assumption) hk
      · rfl,
   App.handle_key_other_char,
   fun _ _ => rfl, fun _ => rfl, fun _ => rfl, fun _ => rfl⟩

/-- Witness for C6 at concrete states: a released `q` does nothing, and a
pressed `x` does nothing. -/
theorem c6_witness :
    App.handle_events ⟨⟨true, 3, [1]⟩, false⟩
        [Event.Key ⟨KeyCode.Char 'q', KeyEventKind.Release⟩] = ⟨⟨true, 3, [1]⟩, false⟩
  ∧ App.handle_key_pressed_event ⟨⟨true, 3, [1]⟩, false⟩
        ⟨KeyCode.Char 'x', KeyEventKind.Press⟩ = ⟨⟨true, 3, [1]⟩, false⟩ :=
  ⟨c6_key_dispatch.1 ⟨⟨true, 3, [1]⟩, false⟩
      ⟨KeyCode.Char 'q', KeyEventKind.Release⟩ (by decide),
   c6_key_dispatch.2.1 ⟨⟨true, 3, [1]⟩, false⟩ 'x' KeyEventKind.Press
      (by decide) (by decide) (by decide)⟩

/-- Claim C10: each handler touches only its own part of the state — the
`q` press leaves the whole clock unchanged; the space and `l` presses leave
the exit flag unchanged; space changes only `running` (not `elapsed_time`
or `laps`), and `l` changes only `laps` (not `running` or `elapsed_time`). -/
theorem c10_handler_frames :
    ∀ a : App,
      (a.handle_key_pressed_event ⟨KeyCode.Char 'q', KeyEventKind.Press⟩).clock = a.clock
    ∧ (a.handle_key_pressed_event ⟨KeyCode.Char ' ', KeyEventKind.Press⟩).exit = a.exit
    ∧ (a.handle_key_pressed_event ⟨KeyCode.Char 'l', KeyEventKind.Press⟩).exit = a.exit
    ∧ (a.handle_key_pressed_event
          ⟨KeyCode.Char ' ', KeyEventKind.Press⟩).clock.elapsed_time
        = a.clock.elapsed_time
    ∧ (a.handle_key_pressed_event ⟨KeyCode.Char ' ', KeyEventKind.Press⟩).clock.laps
        = a.clock.laps
    ∧ (a.handle_key_pressed_event ⟨KeyCode.Char 'l', KeyEventKind.Press⟩).clock.running
        = a.clock.running
    ∧ (a.handle_key_pressed_event
          ⟨KeyCode.Char 'l', KeyEventKind.Press⟩).clock.elapsed_time
        = a.clock.elapsed_time :=
  fun _ => ⟨rfl, rfl, rfl, rfl, rfl, rfl, rfl⟩

theorem padZeros_of_le (w : Nat) (s : String) (h : w ≤ s.length) :
    padZeros w s = s := by
  unfold padZeros
  rw [Nat.sub_eq_zero_of_le h]
  cases s with
  | mk data => rfl

theorem toDecCore_length_pos (fuel n : Nat) (h : 1 ≤ fuel) :
    1 ≤ (toDecCore fuel n).length := by
  cases fuel with
  | zero => omega
  | succ f =>
      unfold toDecCore
      split
      · simp
      · simp only [List.length_append, List.length_singleton]
        omega

theorem toDecCore_length_two (fuel n : Nat) (hf : 2 ≤ fuel) (hn : 10 ≤ n) :
    2 ≤ (toDecCore fuel n).length := by
  cases fuel with
  | zero => omega
  | succ f =>
      unfold toDecCore
      split
      · omega
      · simp only [List.length_append, List.length_singleton]
        have := toDecCore_length_pos f (n / 10) (by omega)
        omega

theorem toDecCore_length_three (fuel n : Nat) (hf : 3 ≤ fuel) (hn : 100 ≤ n) :
    3 ≤ (toDecCore fuel n).length := by
  cases fuel with
  | zero => omega
  | succ f =>
      unfold toDecCore
      split
      · omega
      · simp only [List.length_append, List.length_singleton]
        have := toDecCore_length_two f (n / 10) (by omega) (by omega)
        omega

theorem natDecStr_length_three (n : Nat) (h : 100 ≤ n) :
    3 ≤ (natDecStr n).length := by
  show 3 ≤ (toDecCore (n + 1) n).length
  exact toDecCore_length_three (n + 1) n (by omega) h

theorem duration_into_text_eq_specFormat (dt : Duration) :
    duration_into_text dt
      = specFormat (asMillis dt / 3600000) (asMillis dt / 60000 % 60)
          (asMillis dt / 1000 % 60) (asMillis dt % 1000) := by
  have e1 : asMillis dt / 1000 / 60 / 60 = asMillis dt / 3600000 := by omega
  have e2 : asMillis dt / 1000 / 60 % 60 = asMillis dt / 60000 % 60 := by omega
  simp only [duration_into_text, specFormat]
  rw [e1, e2]

theorem duration_into_text_decomposed (dt : Duration) (h mi s ms : Nat)
    (hmi : mi < 60) (hs : s < 60) (hms : ms < 1000)
    (hm : asMillis dt = h * 3600000 + mi * 60000 + s * 1000 + ms) :
    duration_into_text dt = specFormat h mi s ms := by
  rw [duration_into_text_eq_specFormat dt, hm]
  have e1 : (h * 3600000 + mi * 60000 + s * 1000 + ms) / 3600000 = h := by omega
  have e2 : (h * 3600000 + mi * 60000 + s * 1000 + ms) / 60000 % 60 = mi := by omega
  have e3 : (h * 3600000 + mi * 60000 + s * 1000 + ms) / 1000 % 60 = s := by omega
  have e4 : (h * 3600000 + mi * 60000 + s * 1000 + ms) % 1000 = ms := by omega
  rw [e1, e2, e3, e4]

/-- Claim C2: for every duration, `duration_into_text` renders exactly
`%02d:%02d:%02d:%03d` applied to `(m/3600000, m/60000 mod 60, m/1000 mod 60,
m mod 1000)` of its total milliseconds `m`; in particular, for
`m = h*3600000 + mi*60000 + s*1000 + ms` with in-range minute/second/milli
fields, it renders `h`, `mi`, `s`, `ms` zero-padded to widths 2, 2, 2, 3,
separated by colons. -/
theorem c2_format_exact :
    (∀ dt : Duration,
        duration_into_text dt
          = specFormat (asMillis dt / 3600000) (asMillis dt / 60000 % 60)
              (asMillis dt / 1000 % 60) (asMillis dt % 1000))
  ∧ (∀ (dt : Duration) (h mi s ms : Nat), mi < 60 → s < 60 → ms < 1000 →
        asMillis dt = h * 3600000 + mi * 60000 + s * 1000 + ms →
        duration_into_text dt
          = fmtPad 2 h ++ ":" ++ fmtPad 2 mi ++ ":" ++ fmtPad 2 s ++ ":" ++ fmtPad 3 ms) :=
  ⟨duration_into_text_eq_specFormat,
   fun dt h mi s ms hmi hs hms hm =>
     duration_into_text_decomposed dt h mi s ms hmi hs hms hm⟩

/-- Witness for C2: the duration of 1h 2m 3s 45ms (in nanoseconds) formats
as the padded quadruple, which evaluates to the string `01:02:03:045`. -/
theorem c2_witness :
    duration_into_text 3723045000000
      = fmtPad 2 1 ++ ":" ++ fmtPad 2 2 ++ ":" ++ fmtPad 2 3 ++ ":" ++ fmtPad 3 45
  ∧ fmtPad 2 1 ++ ":" ++ fmtPad 2 2 ++ ":" ++ fmtPad 2 3 ++ ":" ++ fmtPad 3 45
      = "01:02:03:045" :=
  ⟨c2_format_exact.2 3723045000000 1 2 3 45 (by decide) (by decide) (by decide)
      (by decide),
   by decide⟩

/-- Claim C9: at or beyond 100 hours (`m ≥ 100*3600000` total milliseconds),
the hours field of the formatted string is the full decimal value
`m / 3600000` — at least three digits, with the width-2 padding inert — and
it is never reduced modulo anything: the other fields stay as usual. -/
theorem c9_hours_unbounded :
    ∀ dt : Duration, 100 * 3600000 ≤ asMillis dt →
      duration_into_text dt
        = natDecStr (asMillis dt / 3600000) ++ ":" ++ fmtPad 2 (asMillis dt / 60000 % 60)
            ++ ":" ++ fmtPad 2 (asMillis dt / 1000 % 60) ++ ":"
            ++ fmtPad 3 (asMillis dt % 1000)
    ∧ 3 ≤ (natDecStr (asMillis dt / 3600000)).length := by
  intro dt h
  have hh : 100 ≤ asMillis dt / 3600000 := by omega
  have hlen : 3 ≤ (natDecStr (asMillis dt / 3600000)).length :=
    natDecStr_length_three _ hh
  have hpad : fmtPad 2 (asMillis dt / 3600000) = natDecStr (asMillis dt / 3600000) := by
    unfold fmtPad
    exact padZeros_of_le 2 _ (by omega)
  refine ⟨?_, hlen⟩
  rw [duration_into_text_eq_specFormat dt]
  unfold specFormat
  rw [hpad]

/-- Witness for C9: exactly 100 hours (in nanoseconds) formats with the
unpadded three-digit hours field `100`. -/
theorem c9_witness :
    (duration_into_text 360000000000000
        = natDecStr (asMillis 360000000000000 / 3600000) ++ ":"
            ++ fmtPad 2 (asMillis 360000000000000 / 60000 % 60) ++ ":"
            ++ fmtPad 2 (asMillis 360000000000000 / 1000 % 60) ++ ":"
            ++ fmtPad 3 (asMillis 360000000000000 % 1000)
      ∧ 3 ≤ (natDecStr (asMillis 360000000000000 / 3600000)).length)
  ∧ duration_into_text 360000000000000 = "100:00:00:000" :=
  ⟨c9_hours_unbounded 360000000000000 (by decide), by decide⟩
